import Mathlib

/-!
Verification development for the brand-aware icon pipeline
(brand manager, Figma synchronizer, retry policy, multi-brand builder,
token manager). Each JavaScript function referenced below is embedded as a
pure Lean function over an explicit model of the file-system state.
File-system metadata (sizes, timestamps, absolute paths) is not modelled;
a brand directory is identified by its directory name and holds a list of
files. JavaScript strings are modelled as Lean strings; toLowerCase is
modelled on the ASCII range, which is sufficient because every character
whose lowercase form is not ASCII alphanumeric is replaced by a hyphen in
the sanitizer anyway.
-/

/- ### Name sanitization (brand-manager.js sanitizeBrandName / sanitizeIconName)

The JavaScript chain is
  name.toLowerCase().replace(/[^a-z0-9]/g, '-').replace(/[-]+/g, '-').replace(/^-|-$/g, '')
The last regex removes at most one leading and at most one trailing hyphen
(the anchors only match at the two ends); since it runs after the collapse
of hyphen runs this is a full trim. -/

/-- ASCII model of String.prototype.toLowerCase on one character:
65..90 are the codes of A..Z, adding 32 yields a..z. -/
def lowerChar (c : Char) : Char :=
  if 65 ≤ c.toNat ∧ c.toNat ≤ 90 then Char.ofNat (c.toNat + 32) else c

/-- Characters matched by the regex class [a-z0-9]
(97..122 are a..z, 48..57 are 0..9). -/
def isAlnumLower (c : Char) : Bool :=
  (97 ≤ c.toNat && c.toNat ≤ 122) || (48 ≤ c.toNat && c.toNat ≤ 57)

/-- One character after toLowerCase and replace(/[^a-z0-9]/g, '-'). -/
def replChar (c : Char) : Char :=
  let d := lowerChar c
  if isAlnumLower d then d else '-'

/-- replace(/[-]+/g, '-'): collapse every run of hyphens to a single hyphen. -/
def collapseHyphens : List Char → List Char
  | [] => []
  | [c] => [c]
  | a :: b :: t =>
    if a = '-' ∧ b = '-' then collapseHyphens (b :: t)
    else a :: collapseHyphens (b :: t)

/-- The part of replace(/^-|-$/g, '') contributed by the ^- alternative:
remove one leading hyphen if present. -/
def dropLeadHyphen : List Char → List Char
  | [] => []
  | c :: t => if c = '-' then t else c :: t

/-- The part of replace(/^-|-$/g, '') contributed by the -$ alternative:
remove one trailing hyphen if present. -/
def dropTrailHyphen : List Char → List Char
  | [] => []
  | [c] => if c = '-' then [] else [c]
  | c :: rest => c :: dropTrailHyphen rest

/-- The full sanitizer chain on the character list of the input. -/
def sanitizeChars (l : List Char) : List Char :=
  dropTrailHyphen (dropLeadHyphen (collapseHyphens (l.map replChar)))

/-- Error codes of BrandManagerError plus the wrapped catch-block rethrow of
addIconToBrand (code ADD_ICON_ERROR carries the original error in details). -/
inductive BMErr where
  | invalidBrandName
  | invalidIconName
  | brandExists
  | brandNotFound
  | iconExists
  | iconNotFound
  | invalidSvgContent
  | fsWriteError
  | addIconError (inner : BMErr)
deriving DecidableEq, Repr

/-- BrandManager.sanitizeBrandName: rejects an empty input
(falsy in JavaScript), then applies the sanitizer chain. -/
def sanitizeBrandName (name : String) : Except BMErr String :=
  if name = "" then .error .invalidBrandName
  else .ok ⟨sanitizeChars name.data⟩

/-- BrandManager.sanitizeIconName: same chain as sanitizeBrandName with the
INVALID_ICON_NAME error code. -/
def sanitizeIconName (name : String) : Except BMErr String :=
  if name = "" then .error .invalidIconName
  else .ok ⟨sanitizeChars name.data⟩

/- ### Asset store model (brand-manager.js) -/

/-- One file inside a brand directory. -/
structure FsFile where
  filename : String
  content : String
deriving DecidableEq, Repr

/-- One brand directory under the assets directory. -/
structure BrandDir where
  name : String
  files : List FsFile
deriving DecidableEq, Repr

/-- The assets directory: the list of brand directories, in creation order. -/
structure Store where
  brands : List BrandDir
deriving DecidableEq, Repr

def findDirIn : List BrandDir → String → Option (List FsFile)
  | [], _ => none
  | bd :: t, dir => if bd.name = dir then some bd.files else findDirIn t dir

/-- fs.existsSync on a brand directory, returning its files when present. -/
def findDir (st : Store) (dir : String) : Option (List FsFile) :=
  findDirIn st.brands dir

def setDirIn : List BrandDir → String → List FsFile → List BrandDir
  | [], _, _ => []
  | bd :: t, dir, files =>
    if bd.name = dir then ⟨dir, files⟩ :: t else bd :: setDirIn t dir files

/-- Replace the file list of an existing brand directory. -/
def setDir (st : Store) (dir : String) (files : List FsFile) : Store :=
  ⟨setDirIn st.brands dir files⟩

/-- fs.mkdirSync of a fresh brand directory. -/
def addDir (st : Store) (dir : String) : Store :=
  ⟨st.brands ++ [⟨dir, []⟩]⟩

/-- fs.existsSync of one file inside a list of files. -/
def fileExists (files : List FsFile) (fn : String) : Bool :=
  files.any (fun f => f.filename = fn)

/-- fs.existsSync of path.join(brandDir, filename). -/
def pathExists (st : Store) (dir fn : String) : Bool :=
  match findDir st dir with
  | some files => fileExists files fn
  | none => false

/-- fs.writeFileSync semantics inside one directory: overwrite an existing
file of the same name, otherwise create it. -/
def upsertFile : List FsFile → FsFile → List FsFile
  | [], f => [f]
  | g :: t, f => if g.filename = f.filename then f :: t else g :: upsertFile t f

/-- fs.unlinkSync semantics inside one directory. -/
def eraseFile : List FsFile → String → List FsFile
  | [], _ => []
  | g :: t, fn => if g.filename = fn then t else g :: eraseFile t fn

/-- fs.writeFileSync at dir/filename; fails when the directory is missing
(ENOENT), which the addIconToBrand catch block converts to ADD_ICON_ERROR. -/
def writeFile (st : Store) (dir : String) (f : FsFile) : Except BMErr Store :=
  match findDir st dir with
  | none => .error .fsWriteError
  | some files => .ok (setDir st dir (upsertFile files f))

/-- BrandManager.getBrandDirectory: sanitizes its argument again; the model
identifies the directory path by the sanitized brand name. -/
def getBrandDirectory (brandName : String) : Except BMErr String :=
  sanitizeBrandName brandName

/-- BrandManager.createBrand. -/
def createBrand (st : Store) (brandName : String) : Except BMErr (Store × String) :=
  match sanitizeBrandName brandName with
  | .error e => .error e
  | .ok sb =>
    match getBrandDirectory sb with
    | .error e => .error e
    | .ok dir =>
      if (findDir st dir).isSome then .error .brandExists
      else .ok (addDir st dir, dir)

/- #### path.extname / path.basename model -/

/-- Characters of the reversed filename up to (not including) the first dot. -/
def extTake : List Char → List Char
  | [] => []
  | c :: t => if c = '.' then [] else c :: extTake t

/-- Characters of the reversed filename after its first dot, when a dot exists. -/
def extRest : List Char → Option (List Char)
  | [] => none
  | c :: t => if c = '.' then some t else extRest t

/-- path.extname split: (base without extension, extension with its dot).
A dot in position 0 with nothing before it yields no extension, as in Node. -/
def splitExtChars (l : List Char) : List Char × List Char :=
  match extRest l.reverse with
  | none => (l, [])
  | some baseRev =>
    if baseRev = [] then (l, [])
    else (baseRev.reverse, '.' :: (extTake l.reverse).reverse)

/-- path.basename(item, ext): strip ext when it is a proper suffix. -/
def stripSuffix (l suf : List Char) : List Char :=
  if suf.length < l.length ∧ l.drop (l.length - suf.length) = suf then
    l.take (l.length - suf.length)
  else l

/-- The supported extensions, in the fixed order of this.supportedFormats. -/
def supportedFormats : List String := [".svg", ".png", ".jpg", ".jpeg"]

/-- One entry returned by getIconsForBrand (size/mtime metadata omitted). -/
structure IconEntry where
  name : String
  filename : String
  format : String
deriving DecidableEq, Repr

/-- The icon record built for one directory entry, when its (lowercased)
extension is supported. -/
def iconOfFile (f : FsFile) : Option IconEntry :=
  let ext := (splitExtChars f.filename.data).2
  let extL := ext.map lowerChar
  if (⟨extL⟩ : String) ∈ supportedFormats then
    some ⟨⟨stripSuffix f.filename.data extL⟩, f.filename, ⟨extL.drop 1⟩⟩
  else none

/-- Stable insertion into a name-sorted list (Array.prototype.sort is stable;
localeCompare is modelled as code-point order, which agrees with it on the
lowercase alphanumeric names produced by the sanitizer whenever the first
differing position is alphanumeric). -/
def strLeB : List Char → List Char → Bool
  | [], _ => true
  | _ :: _, [] => false
  | a :: as, b :: bs => if a = b then strLeB as bs else decide (a < b)

def insertIcon (x : IconEntry) : List IconEntry → List IconEntry
  | [] => [x]
  | y :: ys => if strLeB x.name.data y.name.data then x :: y :: ys else y :: insertIcon x ys

def sortIcons : List IconEntry → List IconEntry
  | [] => []
  | x :: t => insertIcon x (sortIcons t)

/-- BrandManager.getIconsForBrand. -/
def getIconsForBrand (st : Store) (brandName : String) : Except BMErr (List IconEntry) :=
  match sanitizeBrandName brandName with
  | .error e => .error e
  | .ok sb =>
    match getBrandDirectory sb with
    | .error e => .error e
    | .ok dir =>
      match findDir st dir with
      | none => .error .brandNotFound
      | some files => .ok (sortIcons (files.filterMap iconOfFile))

/-- Substring membership, modelling String.prototype.includes. -/
def leadsWith : List Char → List Char → Bool
  | [], _ => true
  | _ :: _, [] => false
  | p :: ps, c :: cs => p = c && leadsWith ps cs

def containsSeq (pat : List Char) : List Char → Bool
  | [] => leadsWith pat []
  | c :: t => leadsWith pat (c :: t) || containsSeq pat t

/-- content.includes of the root vector tag. -/
def hasSvgTag (s : String) : Bool :=
  containsSeq "<svg".data s.data

/-- The descriptor returned by a successful addIconToBrand. -/
structure AddedIcon where
  brand : String
  name : String
  filename : String
  format : String
deriving DecidableEq, Repr

/-- BrandManager.addIconToBrand. The SVG-content check and the write sit
inside a try whose catch rewraps any thrown error as ADD_ICON_ERROR; the
ICON_EXISTS check happens before the try and is not rewrapped. -/
def addIconToBrand (st : Store) (brandName iconName content fmt : String) :
    Except BMErr (Store × AddedIcon) :=
  match sanitizeBrandName brandName with
  | .error e => .error e
  | .ok sb =>
  match sanitizeIconName iconName with
  | .error e => .error e
  | .ok si =>
  match getBrandDirectory sb with
  | .error e => .error e
  | .ok brandDir =>
  let created : Except BMErr Store :=
    if (findDir st brandDir).isSome then .ok st
    else
      match createBrand st sb with
      | .ok (st2, _) => .ok st2
      | .error e => .error e
  match created with
  | .error e => .error e
  | .ok st1 =>
    let filename := si ++ "." ++ fmt
    if pathExists st1 brandDir filename then .error .iconExists
    else
      if fmt = "svg" ∧ hasSvgTag content = false then
        .error (.addIconError .invalidSvgContent)
      else
        match writeFile st1 brandDir ⟨filename, content⟩ with
        | .error e => .error (.addIconError e)
        | .ok st2 => .ok (st2, ⟨sb, si, filename, fmt⟩)

/-- The descriptor returned by a successful removeIconFromBrand. -/
structure RemovedIcon where
  brand : String
  name : String
  format : String
deriving DecidableEq, Repr

/-- The format search of removeIconFromBrand: first supported extension whose
file exists, in the fixed order of supportedFormats. -/
def findFormatExt (files : List FsFile) (si : String) : List String → Option String
  | [] => none
  | ext :: rest =>
    if fileExists files (si ++ ext) then some ext else findFormatExt files si rest

/-- BrandManager.removeIconFromBrand. -/
def removeIconFromBrand (st : Store) (brandName iconName : String) :
    Except BMErr (Store × RemovedIcon) :=
  match sanitizeBrandName brandName with
  | .error e => .error e
  | .ok sb =>
  match sanitizeIconName iconName with
  | .error e => .error e
  | .ok si =>
  match getBrandDirectory sb with
  | .error e => .error e
  | .ok brandDir =>
  match findDir st brandDir with
  | none => .error .brandNotFound
  | some files =>
    match findFormatExt files si supportedFormats with
    | none => .error .iconNotFound
    | some ext =>
      .ok (setDir st brandDir (eraseFile files (si ++ ext)),
           ⟨sb, si, ⟨ext.data.drop 1⟩⟩)

/- ### Shape predicates for sanitized names -/

/-- A character the sanitizer may emit: lowercase ASCII alphanumeric or a
hyphen. -/
def okChar (c : Char) : Bool :=
  isAlnumLower c || c = '-'

/-- No two adjacent hyphens (the shape enforced by the run collapse). -/
def NoTwo (l : List Char) : Prop :=
  List.Chain' (fun a b => ¬(a = '-' ∧ b = '-')) l

/-- The first character, if any, is not a hyphen. -/
def noLeadHyphen : List Char → Bool
  | [] => true
  | c :: _ => c ≠ '-'

/-- The last character, if any, is not a hyphen. -/
def noTrailHyphen : List Char → Bool
  | [] => true
  | [c] => c ≠ '-'
  | _ :: t => noTrailHyphen t

/-- The full shape invariant of sanitizer output: lowercase alphanumeric or
hyphen characters, no adjacent hyphens, no leading or trailing hyphen. -/
def Sanitized (l : List Char) : Prop :=
  (∀ c ∈ l, okChar c = true) ∧ NoTwo l ∧ noLeadHyphen l = true ∧ noTrailHyphen l = true

/- ### Synchronizer model (sync-figma-icons.js, class FigmaIconSync)

The remote listing (getIconsByBrand) and the per-brand export/download calls
are inputs of the model: the listing is a list of brand names with their
remote icon descriptors, and a RemoteEnv oracle gives, per brand, either an
export failure or a map from node id to the fetch outcome of that node
(missing URL, download failure, or the downloaded SVG text). -/

/-- A Remote Icon Descriptor as produced by FigmaApiService.getIconsByBrand
(names already sanitized there by the same sanitizer chain). -/
structure RemoteIcon where
  id : String
  name : String
  originalName : String
  description : String
deriving DecidableEq, Repr

/-- Outcome of exportResult.images[icon.id] followed by downloadSvg. -/
inductive FetchOutcome where
  | noUrl
  | dlError (msg : String)
  | ok (content : String)

/-- Per-brand outcome of figmaApi.exportNodes plus the per-node downloads. -/
structure RemoteEnv where
  exportRes : String → Except String (String → FetchOutcome)

/-- Printable error code used when a BrandManagerError is recorded in a
results.errors entry. -/
def bmErrCode : BMErr → String
  | .invalidBrandName => "INVALID_BRAND_NAME"
  | .invalidIconName => "INVALID_ICON_NAME"
  | .brandExists => "BRAND_EXISTS"
  | .brandNotFound => "BRAND_NOT_FOUND"
  | .iconExists => "ICON_EXISTS"
  | .iconNotFound => "ICON_NOT_FOUND"
  | .invalidSvgContent => "INVALID_SVG_CONTENT"
  | .fsWriteError => "FS_WRITE_ERROR"
  | .addIconError _ => "ADD_ICON_ERROR"

/-- The per-brand results record of downloadAndSyncIcons (icon names only;
the skipped bucket is never filled by the source and is omitted). -/
structure BrandResults where
  added : List String
  updated : List String
  removed : List String
  errors : List String
deriving DecidableEq, Repr

def emptyResults : BrandResults := ⟨[], [], [], []⟩

/-- How one processed icon lands in the results record. -/
inductive IconAction where
  | addedA
  | updatedA
  | wouldAdd
  | wouldUpdate
  | errA (msg : String)
deriving DecidableEq, Repr

def applyAction (r : BrandResults) (name : String) : IconAction → BrandResults
  | .addedA => {r with added := r.added ++ [name]}
  | .wouldAdd => {r with added := r.added ++ [name]}
  | .updatedA => {r with updated := r.updated ++ [name]}
  | .wouldUpdate => {r with updated := r.updated ++ [name]}
  | .errA m => {r with errors := r.errors ++ [m]}

/-- FigmaIconSync.processIcon: classify against the pre-sync snapshot, then
in a real run add the icon. The ICON_EXISTS recovery in the catch block
first removes the existing file and then evaluates the re-add arguments:
svgContent is a const declared inside the try block and is not in scope in
the catch block, so that reference raises ReferenceError before
addIconToBrand is called — the existing file stays deleted and the error
propagates to the caller loop, which records it and continues. -/
def processIcon (dryRun : Bool) (st : Store) (brandName : String) (icon : RemoteIcon)
    (outcome : FetchOutcome) (currentNames : List String) : Store × IconAction :=
  match outcome with
  | .noUrl => (st, .errA "No export URL provided by Figma")
  | .dlError m => (st, .errA m)
  | .ok svgContent =>
    let isUpdate := currentNames.contains icon.name
    if dryRun then
      (st, if isUpdate then .wouldUpdate else .wouldAdd)
    else
      match addIconToBrand st brandName icon.name svgContent "svg" with
      | .ok (st2, _) => (st2, if isUpdate then .updatedA else .addedA)
      | .error .iconExists =>
        (match removeIconFromBrand st brandName icon.name with
         | .ok (st2, _) => (st2, .errA "ReferenceError: svgContent is not defined")
         | .error e => (st, .errA (bmErrCode e)))
      | .error e => (st, .errA (bmErrCode e))

/-- FigmaIconSync.handleRemovedIcons: every snapshot name absent from the
remote set for the brand is removed (or reported in preview mode). -/
def handleRemovedIcons (dryRun : Bool) (st : Store) (brandName : String)
    (figmaNames : List String) (currentNames : List String) (r : BrandResults) :
    Store × BrandResults :=
  currentNames.foldl
    (fun (p : Store × BrandResults) n =>
      if figmaNames.contains n then p
      else if dryRun then (p.1, {p.2 with removed := p.2.removed ++ [n]})
      else
        match removeIconFromBrand p.1 brandName n with
        | .ok (st2, _) => (st2, {p.2 with removed := p.2.removed ++ [n]})
        | .error e => (p.1, {p.2 with errors := p.2.errors ++ ["Failed to remove: " ++ bmErrCode e]}))
    (st, r)

/-- The per-brand body of FigmaIconSync.downloadAndSyncIcons: ensure the
brand directory exists (BRAND_EXISTS swallowed), export and process each
icon, then detect removals. A brand-level error skips the rest of the
brand, including removal detection. -/
def syncBrand (dryRun : Bool) (env : RemoteEnv) (currentState : List (String × List String))
    (st : Store) (brandName : String) (icons : List RemoteIcon) : Store × BrandResults :=
  let ensured : Except BMErr Store :=
    if dryRun then .ok st
    else
      match createBrand st brandName with
      | .ok (st2, _) => .ok st2
      | .error .brandExists => .ok st
      | .error e => .error e
  match ensured with
  | .error e => (st, {emptyResults with errors := [bmErrCode e]})
  | .ok st1 =>
    let currentNames :=
      (currentState.find? (fun p => p.1 = brandName)).elim [] Prod.snd
    let (st2, r1) :=
      if icons.isEmpty then (st1, emptyResults)
      else
        match env.exportRes brandName with
        | .error m => (st1, {emptyResults with errors := ["Failed to export icons: " ++ m]})
        | .ok imageMap =>
          icons.foldl
            (fun (p : Store × BrandResults) icon =>
              let (stx, act) := processIcon dryRun p.1 brandName icon (imageMap icon.id) currentNames
              (stx, applyAction p.2 icon.name act))
            (st1, emptyResults)
    handleRemovedIcons dryRun st2 brandName (icons.map (fun i => i.name)) currentNames r1

/-- FigmaIconSync.buildCurrentState: the pre-sync snapshot, one entry per
existing brand directory with its sorted icon names (a read failure yields
an empty entry). -/
def buildCurrentState (st : Store) : List (String × List String) :=
  st.brands.map (fun bd =>
    (bd.name,
     match getIconsForBrand st bd.name with
     | .ok icons => icons.map (fun i => i.name)
     | .error _ => []))

/-- One Token Entry of the Token Registry file (tokens/icons.json). -/
structure TokenEntry where
  value : String
  type : String
  description : String
  brand : String
  name : String
  originalName : String
deriving DecidableEq, Repr

/-- JavaScript object insertion semantics for tokens.icon[tokenKey] = entry:
overwrite in place when the key exists, otherwise append. -/
def upsertToken : List (String × TokenEntry) → String → TokenEntry → List (String × TokenEntry)
  | [], k, v => [(k, v)]
  | (k0, v0) :: t, k, v =>
    if k0 = k then (k, v) :: t else (k0, v0) :: upsertToken t k v

/-- The registry contents rebuilt by updateTokensFile from the remote
listing: one entry per remote brand/icon pair, keyed brand-name. -/
def figmaIconsToTokens (figmaIcons : List (String × List RemoteIcon)) :
    List (String × TokenEntry) :=
  figmaIcons.foldl
    (fun acc bi =>
      bi.2.foldl
        (fun acc icon =>
          upsertToken acc (bi.1 ++ "-" ++ icon.name)
            ⟨bi.1 ++ "/" ++ icon.name ++ ".svg", "asset",
             (if icon.description ≠ "" then icon.description else icon.originalName ++ " icon"),
             bi.1, icon.name, icon.originalName⟩)
        acc)
    []

/-- FigmaIconSync.updateTokensFile: in preview mode the file is left alone;
otherwise it is rewritten wholesale from the remote listing. -/
def updateTokensFile (dryRun : Bool) (prev : Option (List (String × TokenEntry)))
    (figmaIcons : List (String × List RemoteIcon)) : Option (List (String × TokenEntry)) :=
  if dryRun then prev else some (figmaIconsToTokens figmaIcons)

/-- The externally visible state after one sync invocation. -/
structure SyncOutcome where
  store : Store
  tokens : Option (List (String × TokenEntry))
  results : List (String × BrandResults)

/-- FigmaIconSync.syncIcons after the remote listing fetch: snapshot the
local state, process every remote brand in listing order, then update the
tokens file. -/
def syncRun (dryRun : Bool) (env : RemoteEnv) (st0 : Store)
    (tokens0 : Option (List (String × TokenEntry)))
    (figmaIcons : List (String × List RemoteIcon)) : SyncOutcome :=
  let currentState := buildCurrentState st0
  let (st1, results) :=
    figmaIcons.foldl
      (fun (p : Store × List (String × BrandResults)) bi =>
        let (st2, r) := syncBrand dryRun env currentState p.1 bi.1 bi.2
        (st2, p.2 ++ [(bi.1, r)]))
      (st0, [])
  ⟨st1, updateTokensFile dryRun tokens0 figmaIcons, results⟩

/- ### Retry policy model (figma-api.js, FigmaApiService.retryRequest)

The request oracle gives the outcome of the i-th attempt; errors are the
FigmaApiError code strings (HTTP_401, HTTP_403, NETWORK_ERROR, ...). The
model also returns the list of attempt indices actually tried and the list
of backoff delays actually slept, so that the never-retried and
exponential-backoff properties are observable. -/

def retryAux {α : Type} (req : Nat → Except String α) (retryDelay attempts : Nat) :
    Nat → Nat → Except String α × List Nat × List Nat
  | _, 0 => (.error "NO_ATTEMPT", [], [])
  | i, fuel + 1 =>
    match req i with
    | .ok a => (.ok a, [i], [])
    | .error e =>
      if i = attempts - 1 then (.error e, [i], [])
      else if e = "HTTP_401" ∨ e = "HTTP_403" then (.error e, [i], [])
      else
        let d := retryDelay * 2 ^ i
        let (r, tried, ds) := retryAux req retryDelay attempts (i + 1) fuel
        (r, i :: tried, d :: ds)

/-- FigmaApiService.retryRequest: (result, attempt indices tried, delays
slept). The fuel equals the attempt count, so the zero-fuel branch is the
JavaScript fall-through return for attempts = 0. -/
def retryRequest {α : Type} (req : Nat → Except String α) (retryDelay attempts : Nat) :
    Except String α × List Nat × List Nat :=
  retryAux req retryDelay attempts 0 attempts

/- ### Multi-brand builder model (config-multi-brand.js, MultiBrandBuilder) -/

/-- How one buildBrand call finishes when its promise fulfills. -/
inductive BrandOutcome where
  | skippedNoIcons
  | built
deriving DecidableEq, Repr

/-- MultiBrandBuilder.buildBrand, seen at the granularity that decides the
build report: a failing icon-list read rejects; an empty icon list logs an
error message and returns (fulfilling the promise); otherwise the stage
sequence runs, its failure (oracle stageRes) rejecting the brand. -/
def buildBrand (stageRes : String → Except String Unit) (st : Store) (brandName : String) :
    Except String BrandOutcome :=
  match getIconsForBrand st brandName with
  | .error e => .error (bmErrCode e)
  | .ok brandIcons =>
    if brandIcons.isEmpty then .ok .skippedNoIcons
    else
      match stageRes brandName with
      | .ok _ => .ok .built
      | .error m => .error m

/-- The per-run aggregation state of MultiBrandBuilder.build. -/
structure BuildReport where
  successCount : Nat
  errors : List (String × String)
deriving DecidableEq, Repr

/-- How MultiBrandBuilder.build folds one settled brand promise into the
report: fulfilled counts as a success, rejected is recorded with brand
attribution. -/
def buildStep (stageRes : String → Except String Unit) (st : Store)
    (rep : BuildReport) (b : String) : BuildReport :=
  match buildBrand stageRes st b with
  | .ok _ => {rep with successCount := rep.successCount + 1}
  | .error m => {rep with errors := rep.errors ++ [(b, m)]}

/-- MultiBrandBuilder.build over Promise.allSettled results; the overall
result is success only when every brand built. -/
def buildAll (stageRes : String → Except String Unit) (st : Store) (brands : List String) :
    BuildReport × Bool :=
  let rep := brands.foldl (buildStep stageRes st) ⟨0, []⟩
  (rep, rep.successCount = brands.length)

/-- MultiBrandBuilder.generateFontFiles, seen at the granularity of the
process working directory: chdir to the brand assets directory, run the
webfont compiler (oracle), and chdir back only on the success path — the
catch block logs and rethrows without restoring. Returns the final working
directory and the result. -/
def generateFontFiles (cwd : String) (brandAssetsDir : String)
    (webfontResult : Except String Unit) : String × Except String Unit :=
  let originalCwd := cwd
  match webfontResult with
  | .ok _ => (originalCwd, .ok ())
  | .error e => (brandAssetsDir, .error e)

/- ### Token manager model (token-manager.js, TokenManager) -/

/-- TokenManagerError INVALID_TOKEN_PARAMS. -/
inductive TMErr where
  | invalidTokenParams
deriving DecidableEq, Repr

/-- TokenManager.createTokenKey: rejects falsy (empty) arguments. -/
def createTokenKey (brand iconName : String) : Except TMErr String :=
  if brand = "" ∨ iconName = "" then .error .invalidTokenParams
  else .ok (brand ++ "-" ++ iconName)

/-- The issues validateTokenStructure can push for one entry. -/
inductive ValIssue where
  | missingValue (k : String)
  | missingType (k : String)
  | missingBrand (k : String)
  | missingName (k : String)
  | keyMismatch (k expected : String)
deriving DecidableEq, Repr

/-- The per-entry loop of TokenManager.validateTokenStructure on a
well-shaped tokens object: accumulate issues over all entries; a thrown
createTokenKey error aborts the whole check. -/
def validateTokenEntries : List (String × TokenEntry) → Except TMErr (List ValIssue)
  | [] => .ok []
  | (k, t) :: rest =>
    let e1 := if t.value = "" then [ValIssue.missingValue k] else []
    let e2 := if t.type = "" then [ValIssue.missingType k] else []
    let e3 := if t.brand = "" then [ValIssue.missingBrand k] else []
    let e4 := if t.name = "" then [ValIssue.missingName k] else []
    match createTokenKey t.brand t.name with
    | .error e => .error e
    | .ok expected =>
      let e5 := if k ≠ expected then [ValIssue.keyMismatch k expected] else []
      match validateTokenEntries rest with
      | .error e => .error e
      | .ok es => .ok (e1 ++ e2 ++ e3 ++ e4 ++ e5 ++ es)

/- ### Concrete sync scenario (spec section 8, property 6) -/

/-- Local state: brand global containing only icon hamburger. -/
def c1Store : Store := ⟨[⟨"global", [⟨"hamburger.svg", "<svg>old</svg>"⟩]⟩]⟩

/-- Remote listing: brand global with icons hamburger and ice-cream. -/
def c1Remote : List (String × List RemoteIcon) :=
  [("global", [⟨"1:1", "hamburger", "Hamburger", ""⟩, ⟨"1:2", "ice-cream", "Ice Cream", ""⟩])]

/-- Every export and download succeeds. -/
def c1Env : RemoteEnv :=
  ⟨fun b =>
    if b = "global" then
      .ok (fun id =>
        if id = "1:1" then .ok "<svg>h</svg>"
        else if id = "1:2" then .ok "<svg>i</svg>"
        else .noUrl)
    else .error "unknown brand"⟩

/-- The outcome of the non-preview sync run on this scenario. -/
def c1Out : SyncOutcome := syncRun false c1Env c1Store none c1Remote

/- ### Lemmas about the sanitizer chain -/

theorem lowerChar_id (c : Char) (h : isAlnumLower c = true) : lowerChar c = c := by
  unfold isAlnumLower at h
  simp only [Bool.or_eq_true, Bool.and_eq_true, decide_eq_true_eq] at h
  unfold lowerChar
  have hn : ¬(65 ≤ c.toNat ∧ c.toNat ≤ 90) := by omega
  simp [hn]

theorem replChar_id (c : Char) (h : isAlnumLower c = true) : replChar c = c := by
  unfold replChar
  rw [lowerChar_id c h]
  simp [h]

theorem replChar_hyphen : replChar '-' = '-' := by decide

theorem replChar_okChar (c : Char) : okChar (replChar c) = true := by
  unfold replChar okChar
  by_cases h : isAlnumLower (lowerChar c) = true
  · simp [h]
  · simp [h]

theorem okChar_cases (c : Char) (h : okChar c = true) :
    isAlnumLower c = true ∨ c = '-' := by
  unfold okChar at h
  simpa using h

theorem map_replChar_id (l : List Char) (h : ∀ c ∈ l, okChar c = true) :
    l.map replChar = l := by
  induction l with
  | nil => rfl
  | cons a t ih =>
    have ha := okChar_cases a (h a (by simp))
    have hrep : replChar a = a := by
      rcases ha with ha | ha
      · exact replChar_id a ha
      · rw [ha]; exact replChar_hyphen
    simp only [List.map_cons, hrep, List.cons.injEq, true_and]
    exact ih (fun c hc => h c (by simp [hc]))

theorem noTwo_nil : NoTwo [] := List.chain'_nil

theorem noTwo_singleton (c : Char) : NoTwo [c] := List.chain'_singleton c

theorem noTwo_cons₂ {a b : Char} {t : List Char} :
    NoTwo (a :: b :: t) ↔ ¬(a = '-' ∧ b = '-') ∧ NoTwo (b :: t) :=
  List.chain'_cons

theorem noTwo_tail {a : Char} {t : List Char} (h : NoTwo (a :: t)) : NoTwo t := by
  cases t with
  | nil => exact noTwo_nil
  | cons b t2 => exact (noTwo_cons₂.mp h).2

theorem collapse_sub : ∀ (l : List Char) (c : Char), c ∈ collapseHyphens l → c ∈ l
  | [], c, h => by simpa [collapseHyphens] using h
  | [a], c, h => by simpa [collapseHyphens] using h
  | a :: b :: t, c, h => by
    simp only [collapseHyphens] at h
    by_cases hab : a = '-' ∧ b = '-'
    · simp only [if_pos hab] at h
      exact List.mem_cons_of_mem a (collapse_sub (b :: t) c h)
    · simp only [if_neg hab, List.mem_cons] at h
      rcases h with h | h
      · simp [h]
      · exact List.mem_cons_of_mem a (collapse_sub (b :: t) c h)

theorem collapse_head : ∀ (b : Char) (t : List Char),
    ∃ t2, collapseHyphens (b :: t) = b :: t2
  | b, [] => ⟨[], by simp [collapseHyphens]⟩
  | b, c :: t => by
    by_cases hbc : b = '-' ∧ c = '-'
    · obtain ⟨t2, ht2⟩ := collapse_head c t
      refine ⟨t2, ?_⟩
      simp only [collapseHyphens]
      rw [if_pos hbc, ht2, hbc.1, hbc.2]
    · exact ⟨collapseHyphens (c :: t), by simp [collapseHyphens, hbc]⟩

theorem collapse_noTwo : ∀ l : List Char, NoTwo (collapseHyphens l)
  | [] => by simpa [collapseHyphens] using noTwo_nil
  | [a] => by simpa [collapseHyphens] using noTwo_singleton a
  | a :: b :: t => by
    simp only [collapseHyphens]
    by_cases hab : a = '-' ∧ b = '-'
    · simpa [if_pos hab] using collapse_noTwo (b :: t)
    · simp only [if_neg hab]
      obtain ⟨t2, ht2⟩ := collapse_head b t
      rw [ht2]
      rw [noTwo_cons₂]
      refine ⟨hab, ?_⟩
      rw [← ht2]
      exact collapse_noTwo (b :: t)

theorem collapse_id : ∀ l : List Char, NoTwo l → collapseHyphens l = l
  | [], _ => by simp [collapseHyphens]
  | [a], _ => by simp [collapseHyphens]
  | a :: b :: t, h => by
    have hab := (noTwo_cons₂.mp h).1
    simp only [collapseHyphens, if_neg hab, List.cons.injEq, true_and]
    exact collapse_id (b :: t) (noTwo_cons₂.mp h).2

theorem dropLead_sub {l : List Char} {c : Char} (h : c ∈ dropLeadHyphen l) : c ∈ l := by
  cases l with
  | nil => simpa [dropLeadHyphen] using h
  | cons a t =>
    by_cases ha : a = '-'
    · simp only [dropLeadHyphen, if_pos ha] at h
      exact List.mem_cons_of_mem a h
    · simpa [dropLeadHyphen, if_neg ha] using h

theorem dropLead_noLead {l : List Char} (h : NoTwo l) :
    noLeadHyphen (dropLeadHyphen l) = true := by
  cases l with
  | nil => rfl
  | cons a t =>
    by_cases ha : a = '-'
    · simp only [dropLeadHyphen, if_pos ha]
      cases t with
      | nil => rfl
      | cons b t2 =>
        have hb : ¬(a = '-' ∧ b = '-') := (noTwo_cons₂.mp h).1
        have : b ≠ '-' := fun hbe => hb ⟨ha, hbe⟩
        simp [noLeadHyphen, this]
    · simp [dropLeadHyphen, if_neg ha, noLeadHyphen, ha]

theorem dropLead_noTwo {l : List Char} (h : NoTwo l) : NoTwo (dropLeadHyphen l) := by
  cases l with
  | nil => exact noTwo_nil
  | cons a t =>
    by_cases ha : a = '-'
    · simp only [dropLeadHyphen, if_pos ha]
      exact noTwo_tail h
    · simpa [dropLeadHyphen, if_neg ha] using h

theorem dropLead_id {l : List Char} (h : noLeadHyphen l = true) :
    dropLeadHyphen l = l := by
  cases l with
  | nil => rfl
  | cons a t =>
    have : a ≠ '-' := by simpa [noLeadHyphen] using h
    simp [dropLeadHyphen, this]

theorem dropTrail_sub : ∀ {l : List Char} {c : Char}, c ∈ dropTrailHyphen l → c ∈ l
  | [], c, h => by simpa [dropTrailHyphen] using h
  | [a], c, h => by
    by_cases ha : a = '-'
    · simp [dropTrailHyphen, ha] at h
    · simpa [dropTrailHyphen, ha] using h
  | a :: b :: t, c, h => by
    simp only [dropTrailHyphen, List.mem_cons] at h
    rcases h with h | h
    · simp [h]
    · exact List.mem_cons_of_mem a (dropTrail_sub h)

theorem dropTrail_shape (a : Char) (t : List Char) :
    dropTrailHyphen (a :: t) = [] ∨ ∃ t2, dropTrailHyphen (a :: t) = a :: t2 := by
  cases t with
  | nil =>
    by_cases ha : a = '-'
    · left; simp [dropTrailHyphen, ha]
    · right; exact ⟨[], by simp [dropTrailHyphen, ha]⟩
  | cons b t2 => right; exact ⟨dropTrailHyphen (b :: t2), by simp [dropTrailHyphen]⟩

theorem dropTrail_noTwo : ∀ {l : List Char}, NoTwo l → NoTwo (dropTrailHyphen l)
  | [], _ => noTwo_nil
  | [a], _ => by
    by_cases ha : a = '-'
    · simpa [dropTrailHyphen, ha] using noTwo_nil
    · simpa [dropTrailHyphen, ha] using noTwo_singleton a
  | a :: b :: t, h => by
    simp only [dropTrailHyphen]
    have hrec := dropTrail_noTwo (noTwo_cons₂.mp h).2
    rcases dropTrail_shape b t with hsh | ⟨t2, hsh⟩
    · rw [hsh]; exact noTwo_singleton a
    · rw [hsh]
      rw [hsh] at hrec
      exact noTwo_cons₂.mpr ⟨(noTwo_cons₂.mp h).1, hrec⟩

theorem dropTrail_noLead {l : List Char} (h : noLeadHyphen l = true) :
    noLeadHyphen (dropTrailHyphen l) = true := by
  cases l with
  | nil => rfl
  | cons a t =>
    have ha : a ≠ '-' := by simpa [noLeadHyphen] using h
    rcases dropTrail_shape a t with hsh | ⟨t2, hsh⟩
    · simp [hsh, noLeadHyphen]
    · simp [hsh, noLeadHyphen, ha]

theorem dropTrail_noTrail : ∀ {l : List Char}, NoTwo l →
    noTrailHyphen (dropTrailHyphen l) = true
  | [], _ => rfl
  | [a], _ => by
    by_cases ha : a = '-'
    · simp [dropTrailHyphen, ha, noTrailHyphen]
    · simp [dropTrailHyphen, ha, noTrailHyphen]
  | a :: b :: t, h => by
    simp only [dropTrailHyphen]
    have hrec := dropTrail_noTrail (noTwo_cons₂.mp h).2
    rcases dropTrail_shape b t with hsh | ⟨t2, hsh⟩
    · rw [hsh]
      have hb : dropTrailHyphen (b :: t) = [] := hsh
      have : b :: t = ['-'] := by
        cases t with
        | nil =>
          by_cases hbe : b = '-'
          · rw [hbe]
          · simp [dropTrailHyphen, hbe] at hb
        | cons c t3 => simp [dropTrailHyphen] at hb
      have hb2 : b = '-' := by
        injection this with h1 _
      have ha : a ≠ '-' := fun hae => (noTwo_cons₂.mp h).1 ⟨hae, hb2⟩
      simp [noTrailHyphen, ha]
    · rw [hsh]
      rw [hsh] at hrec
      simpa [noTrailHyphen] using hrec

theorem dropTrail_id : ∀ {l : List Char}, noTrailHyphen l = true →
    dropTrailHyphen l = l
  | [], _ => rfl
  | [a], h => by
    have : a ≠ '-' := by simpa [noTrailHyphen] using h
    simp [dropTrailHyphen, this]
  | a :: b :: t, h => by
    have : noTrailHyphen (b :: t) = true := by simpa [noTrailHyphen] using h
    simp only [dropTrailHyphen, List.cons.injEq, true_and]
    exact dropTrail_id this

theorem sanitizeChars_sanitized (l : List Char) : Sanitized (sanitizeChars l) := by
  unfold sanitizeChars Sanitized
  have hok : ∀ c ∈ (l.map replChar), okChar c = true := by
    intro c hc
    obtain ⟨d, _, hd⟩ := List.mem_map.mp hc
    rw [← hd]
    exact replChar_okChar d
  have h1 := collapse_noTwo (l.map replChar)
  have h2 := dropLead_noTwo h1
  refine ⟨?_, dropTrail_noTwo h2, ?_, dropTrail_noTrail h2⟩
  · intro c hc
    exact hok c (collapse_sub _ c (dropLead_sub (dropTrail_sub hc)))
  · exact dropTrail_noLead (dropLead_noLead h1)

theorem sanitized_fixed {l : List Char} (h : Sanitized l) : sanitizeChars l = l := by
  obtain ⟨hok, hnt, hnl, htr⟩ := h
  unfold sanitizeChars
  rw [map_replChar_id l hok, collapse_id l hnt, dropLead_id hnl, dropTrail_id htr]

theorem sanitizeIconName_of_ok {x y : String} (h : sanitizeIconName x = .ok y) :
    y.data = sanitizeChars x.data := by
  unfold sanitizeIconName at h
  by_cases hx : x = ""
  · simp [hx] at h
  · simp only [if_neg hx, Except.ok.injEq] at h
    rw [← h]

theorem sanitizeBrandName_of_ok {x y : String} (h : sanitizeBrandName x = .ok y) :
    y.data = sanitizeChars x.data := by
  unfold sanitizeBrandName at h
  by_cases hx : x = ""
  · simp [hx] at h
  · simp only [if_neg hx, Except.ok.injEq] at h
    rw [← h]

theorem string_mk_data (y : String) : (⟨y.data⟩ : String) = y := rfl

theorem sanitizeIconName_idem {x y : String} (h : sanitizeIconName x = .ok y)
    (hy : y ≠ "") : sanitizeIconName y = .ok y := by
  unfold sanitizeIconName
  rw [if_neg hy]
  have : sanitizeChars y.data = y.data := by
    rw [sanitizeIconName_of_ok h]
    exact sanitized_fixed (sanitizeChars_sanitized x.data)
  rw [this]

theorem sanitizeBrandName_idem {x y : String} (h : sanitizeBrandName x = .ok y)
    (hy : y ≠ "") : sanitizeBrandName y = .ok y := by
  unfold sanitizeBrandName
  rw [if_neg hy]
  have : sanitizeChars y.data = y.data := by
    rw [sanitizeBrandName_of_ok h]
    exact sanitized_fixed (sanitizeChars_sanitized x.data)
  rw [this]

/- ### Claim C7: sanitizer idempotence and output shape -/

/-- Claim C7 counterexample: the input consisting of a single hyphen is a
non-empty string the normalizer accepts, its normalization is the empty
string, and normalizing that output again is rejected rather than returning
the same value — so normalize(normalize(x)) = normalize(x) fails at x = "-". -/
theorem c7_counterexample :
    sanitizeIconName "-" = .ok "" ∧ sanitizeIconName "" = .error .invalidIconName :=
  ⟨rfl, rfl⟩

/-- Claim C7 (amended): for every input the normalizer accepts, the output
consists of lowercase alphanumeric characters and hyphens with every hyphen
run collapsed and no leading or trailing hyphen; and whenever the output is
itself non-empty (the only case in which the normalizer accepts it again),
normalization is idempotent. -/
theorem c7_sanitize_shape_and_idempotent (x y : String)
    (h : sanitizeIconName x = .ok y) :
    Sanitized y.data ∧ (y ≠ "" → sanitizeIconName y = .ok y) := by
  constructor
  · rw [sanitizeIconName_of_ok h]
    exact sanitizeChars_sanitized x.data
  · intro hy
    exact sanitizeIconName_idem h hy

/-- Witness for the amended claim C7 at the concrete input "Hello World". -/
theorem c7_sanitize_shape_and_idempotent_witness :
    sanitizeIconName "Hello World" = .ok "hello-world" ∧
      (Sanitized (String.data "hello-world") ∧
        ("hello-world" ≠ "" → sanitizeIconName "hello-world" = .ok "hello-world")) :=
  ⟨rfl, c7_sanitize_shape_and_idempotent "Hello World" "hello-world" rfl⟩

/- ### Claim C1: the concrete hamburger / ice-cream sync scenario -/

/-- Claim C1 (code bug): with local brand global holding only hamburger and
the remote listing returning hamburger and ice-cream for global (every
download succeeding), the intended remove-then-readd update of hamburger
breaks: the catch block of processIcon references svgContent, a const
scoped to the try block, so after the remove succeeds the re-add raises
ReferenceError. The run therefore classifies only ice-cream as added,
records hamburger as a per-icon error instead of an update, and the
post-sync listing of global is [ice-cream] alone — not the
[hamburger, ice-cream] the claim (and the spec) require. -/
theorem c1_sync_scenario_reference_error :
    c1Out.results
        = [("global", ⟨["ice-cream"], [], [], ["ReferenceError: svgContent is not defined"]⟩)] ∧
      getIconsForBrand c1Out.store "global" = .ok [⟨"ice-cream", "ice-cream.svg", "svg"⟩] :=
  ⟨rfl, rfl⟩

/- ### Claim C2: working-directory restoration in the font stage -/

/-- Claim C2 (code bug): when the webfont call fails, generateFontFiles
leaves the process working directory at the brand assets directory — the
catch block rethrows without restoring it — while the success path does
restore the original working directory. -/
theorem c2_font_stage_cwd_not_restored_on_error :
    (generateFontFiles "/repo" "/repo/assets/global" (.error "webfont failed")).1
        = "/repo/assets/global" ∧
      ¬ ("/repo/assets/global" = "/repo") ∧
      (generateFontFiles "/repo" "/repo/assets/global" (.ok ())).1 = "/repo" :=
  ⟨rfl, by decide, rfl⟩

/- ### Claim C5: brands with an empty icon snapshot -/

/-- Claim C5 counterexample: a brand whose directory exists but holds no
icons is counted as a build success with an empty error list, and the whole
build reports overall success — the brand is not reported as failed. -/
theorem c5_counterexample :
    buildAll (fun _ => .ok ()) ⟨[⟨"empty", []⟩]⟩ ["empty"] = (⟨1, []⟩, true) :=
  rfl

theorem buildStep_errors (stageRes : String → Except String Unit) (st : Store) :
    ∀ (brands : List String) (rep : BuildReport) (p : String × String),
      p ∈ (brands.foldl (buildStep stageRes st) rep).errors →
      p ∈ rep.errors ∨ ∃ m, buildBrand stageRes st p.1 = .error m := by
  intro brands
  induction brands with
  | nil => intro rep p hp; exact Or.inl hp
  | cons b bs ih =>
    intro rep p hp
    simp only [List.foldl_cons] at hp
    rcases ih (buildStep stageRes st rep b) p hp with h0 | h0
    · unfold buildStep at h0
      cases hbb : buildBrand stageRes st b with
      | ok v => rw [hbb] at h0; exact Or.inl h0
      | error m =>
        rw [hbb] at h0
        simp only [List.mem_append, List.mem_singleton] at h0
        rcases h0 with h0 | h0
        · exact Or.inl h0
        · refine Or.inr ⟨m, ?_⟩
          rw [h0]
          exact hbb
    · exact Or.inr h0

/-- Claim C5 (amended): a brand whose icon snapshot at brand-build start is
empty finishes early as a fulfilled promise (no stage runs): it is counted
as a success in the build report and no error is recorded against it,
rather than failing the whole-brand build. -/
theorem c5_empty_snapshot_counts_as_success (stageRes : String → Except String Unit)
    (st : Store) (b : String) (brands : List String)
    (h : getIconsForBrand st b = .ok []) :
    buildBrand stageRes st b = .ok .skippedNoIcons ∧
      ∀ p ∈ (buildAll stageRes st brands).1.errors, p.1 ≠ b := by
  have hbb : buildBrand stageRes st b = .ok .skippedNoIcons := by
    unfold buildBrand
    rw [h]
    rfl
  refine ⟨hbb, ?_⟩
  intro p hp hpb
  have hp2 : p ∈ (brands.foldl (buildStep stageRes st) ⟨0, []⟩).errors := hp
  rcases buildStep_errors stageRes st brands ⟨0, []⟩ p hp2 with h0 | ⟨m, hm⟩
  · simp at h0
  · rw [hpb, hbb] at hm
    exact absurd hm (by simp)

/-- Witness for the amended claim C5 on a concrete empty brand. -/
theorem c5_empty_snapshot_counts_as_success_witness :
    getIconsForBrand ⟨[⟨"empty", []⟩]⟩ "empty" = .ok [] ∧
      (buildBrand (fun _ => .ok ()) ⟨[⟨"empty", []⟩]⟩ "empty" = .ok .skippedNoIcons ∧
        ∀ p ∈ (buildAll (fun _ => .ok ()) ⟨[⟨"empty", []⟩]⟩ ["empty"]).1.errors, p.1 ≠ "empty") :=
  ⟨rfl, c5_empty_snapshot_counts_as_success (fun _ => .ok ()) ⟨[⟨"empty", []⟩]⟩ "empty" ["empty"] rfl⟩

/- ### Claim C6: invalid vector content on addIcon -/

/-- Claim C6 counterexample: adding content without a root vector tag fails,
but the surfaced error code is ADD_ICON_ERROR (the catch block of
addIconToBrand rewraps its own INVALID_SVG_CONTENT throw), not the
InvalidContent code the claim names. -/
theorem c6_counterexample :
    addIconToBrand ⟨[]⟩ "global" "x" "hello" "svg"
        = .error (.addIconError .invalidSvgContent) ∧
      addIconToBrand ⟨[]⟩ "global" "x" "hello" "svg" ≠ .error .invalidSvgContent :=
  ⟨rfl, by
    intro h
    rw [show addIconToBrand ⟨[]⟩ "global" "x" "hello" "svg"
          = .error (.addIconError .invalidSvgContent) from rfl] at h
    exact BMErr.noConfusion (Except.error.inj h)⟩

theorem findDirIn_append_none (d : String) :
    ∀ bs : List BrandDir, findDirIn bs d = none →
      findDirIn (bs ++ [⟨d, []⟩]) d = some [] := by
  intro bs
  induction bs with
  | nil => intro _; simp [findDirIn]
  | cons bd t ih =>
    intro h
    by_cases hbd : bd.name = d
    · simp [findDirIn, hbd] at h
    · simp only [findDirIn, if_neg hbd] at h
      simp only [List.cons_append, findDirIn, if_neg hbd]
      exact ih h

/-- Claim C6 (amended): for every brand, icon name, and content without a
root vector tag, when no file for that name and the svg format already
exists, addIcon fails with error code ADD_ICON_ERROR wrapping
INVALID_SVG_CONTENT (the validation throw is caught and rewrapped by the
addIconToBrand catch block) and no file is written. -/
theorem c6_invalid_svg_rewrapped (st : Store) (b i c sb si : String)
    (hsb : sanitizeBrandName b = .ok sb) (hsi : sanitizeIconName i = .ok si)
    (hne : sb ≠ "") (hc : hasSvgTag c = false)
    (hnofile : pathExists st sb (si ++ "." ++ "svg") = false) :
    addIconToBrand st b i c "svg" = .error (.addIconError .invalidSvgContent) := by
  have hid : sanitizeBrandName sb = .ok sb := sanitizeBrandName_idem hsb hne
  unfold addIconToBrand
  simp only [hsb, hsi, getBrandDirectory, hid]
  cases hfd : findDir st sb with
  | some files =>
    simp only [hfd, Option.isSome_some, if_true]
    have hpe : pathExists st sb (si ++ "." ++ "svg") = false := hnofile
    rw [hpe]
    simp [hc]
  | none =>
    simp only [hfd, Option.isSome_none, Bool.false_eq_true, if_false]
    unfold createBrand
    simp only [hid, getBrandDirectory, hfd, Option.isSome_none, Bool.false_eq_true, if_false]
    have hfd2 : findDir (addDir st sb) sb = some [] := by
      unfold findDir addDir at *
      exact findDirIn_append_none sb st.brands hfd
    have hpe : pathExists (addDir st sb) sb (si ++ "." ++ "svg") = false := by
      unfold pathExists
      rw [hfd2]
      rfl
    rw [hpe]
    simp [hc]

/-- Witness for the amended claim C6 at a concrete invalid content. -/
theorem c6_invalid_svg_rewrapped_witness :
    sanitizeBrandName "global" = .ok "global" ∧
      sanitizeIconName "x" = .ok "x" ∧
      "global" ≠ "" ∧
      hasSvgTag "hello" = false ∧
      pathExists ⟨[]⟩ "global" ("x" ++ "." ++ "svg") = false ∧
      addIconToBrand ⟨[]⟩ "global" "x" "hello" "svg"
        = .error (.addIconError .invalidSvgContent) :=
  ⟨rfl, rfl, by decide, rfl, rfl,
    c6_invalid_svg_rewrapped ⟨[]⟩ "global" "x" "hello" "global" "x" rfl rfl (by decide) rfl rfl⟩

/- ### Claim C3: preview mode never mutates -/

theorem foldl_fst_invariant {α β γ : Type} (f : (γ × β) → α → (γ × β))
    (hf : ∀ p n, (f p n).1 = p.1) :
    ∀ (l : List α) (p : γ × β), (List.foldl f p l).1 = p.1 := by
  intro l
  induction l with
  | nil => intro p; rfl
  | cons n t ih =>
    intro p
    rw [List.foldl_cons, ih]
    exact hf p n

theorem processIcon_dryRun_store (st : Store) (b : String) (icon : RemoteIcon)
    (o : FetchOutcome) (names : List String) :
    (processIcon true st b icon o names).1 = st := by
  cases o <;> simp [processIcon]

theorem handleRemovedIcons_dryRun_store (st : Store) (b : String)
    (fn cn : List String) (r : BrandResults) :
    (handleRemovedIcons true st b fn cn r).1 = st := by
  unfold handleRemovedIcons
  apply foldl_fst_invariant
  intro p n
  by_cases h : n ∈ fn <;> simp [h]

theorem syncBrand_dryRun_store (env : RemoteEnv) (cs : List (String × List String))
    (st : Store) (b : String) (icons : List RemoteIcon) :
    (syncBrand true env cs st b icons).1 = st := by
  unfold syncBrand
  simp only [if_true]
  by_cases hie : icons.isEmpty
  · simp only [hie, if_true]
    exact handleRemovedIcons_dryRun_store st b _ _ _
  · simp only [hie, Bool.false_eq_true, if_false]
    cases hexp : env.exportRes b with
    | error m =>
      simp only [hexp]
      exact handleRemovedIcons_dryRun_store st b _ _ _
    | ok imageMap =>
      simp only [hexp]
      have hfold :
          (icons.foldl
            (fun (p : Store × BrandResults) icon =>
              let (stx, act) := processIcon true p.1 b icon (imageMap icon.id)
                ((cs.find? (fun q => q.1 = b)).elim [] Prod.snd)
              (stx, applyAction p.2 icon.name act))
            (st, emptyResults)).1 = st := by
        apply foldl_fst_invariant
        intro p icon
        have h2 := processIcon_dryRun_store p.1 b icon (imageMap icon.id)
          ((cs.find? (fun q => q.1 = b)).elim [] Prod.snd)
        rcases hpe : processIcon true p.1 b icon (imageMap icon.id)
          ((cs.find? (fun q => q.1 = b)).elim [] Prod.snd) with ⟨stx, act⟩
        rw [hpe] at h2
        simpa [hpe] using h2
      rcases hF : icons.foldl
          (fun (p : Store × BrandResults) icon =>
            let (stx, act) := processIcon true p.1 b icon (imageMap icon.id)
              ((cs.find? (fun q => q.1 = b)).elim [] Prod.snd)
            (stx, applyAction p.2 icon.name act))
          (st, emptyResults) with ⟨st2, r1⟩
      rw [hF] at hfold
      simp only [hF]
      rw [handleRemovedIcons_dryRun_store st2 b _ _ _]
      exact hfold

/-- Claim C3: for every pair of local and remote states (and every outcome
of the export and download calls), a preview (dry-run) sync leaves the
Asset Store and the Token Registry file exactly as they were: no brand is
created, no icon is added or removed, and the tokens file is not rewritten. -/
theorem c3_preview_never_mutates (env : RemoteEnv) (st0 : Store)
    (tokens0 : Option (List (String × TokenEntry)))
    (figmaIcons : List (String × List RemoteIcon)) :
    (syncRun true env st0 tokens0 figmaIcons).store = st0 ∧
      (syncRun true env st0 tokens0 figmaIcons).tokens = tokens0 := by
  unfold syncRun
  have hfold :
      (figmaIcons.foldl
        (fun (p : Store × List (String × BrandResults)) bi =>
          let (st2, r) := syncBrand true env (buildCurrentState st0) p.1 bi.1 bi.2
          (st2, p.2 ++ [(bi.1, r)]))
        (st0, [])).1 = st0 := by
    apply foldl_fst_invariant
    intro p bi
    have h2 := syncBrand_dryRun_store env (buildCurrentState st0) p.1 bi.1 bi.2
    rcases hpe : syncBrand true env (buildCurrentState st0) p.1 bi.1 bi.2 with ⟨st2, r⟩
    rw [hpe] at h2
    simpa [hpe] using h2
  rcases hF : figmaIcons.foldl
      (fun (p : Store × List (String × BrandResults)) bi =>
        let (st2, r) := syncBrand true env (buildCurrentState st0) p.1 bi.1 bi.2
        (st2, p.2 ++ [(bi.1, r)]))
      (st0, []) with ⟨st1, results⟩
  rw [hF] at hfold
  simp only [hF]
  exact ⟨hfold, by simp [updateTokensFile]⟩

/- ### Claim C8: retry policy of the remote adapter -/

theorem retryAux_reaches {α : Type} (req : Nat → Except String α) (delay attempts : Nat)
    (t : Nat) (e : String) (ht : t < attempts)
    (hmid : ∀ j, j < t → ∃ ej, req j = .error ej ∧ ¬(ej = "HTTP_401" ∨ ej = "HTTP_403"))
    (hreq : req t = .error e)
    (hstop : t = attempts - 1 ∨ (e = "HTTP_401" ∨ e = "HTTP_403")) :
    ∀ (fuel i : Nat), i + fuel = attempts → i ≤ t →
      retryAux req delay attempts i fuel
        = (.error e, List.range' i (t - i + 1), (List.range' i (t - i)).map (fun j => delay * 2 ^ j)) := by
  intro fuel
  induction fuel with
  | zero => intro i hif hit; omega
  | succ fuel ih =>
    intro i hif hit
    rcases Nat.lt_or_ge i t with hlt | hge
    · obtain ⟨ei, hei, hna⟩ := hmid i hlt
      have hine : ¬(i = attempts - 1) := by omega
      have hrange : t - i = (t - (i + 1)) + 1 := by omega
      have h1 : t - i + 1 = ((t - (i + 1)) + 1) + 1 := by omega
      simp only [retryAux, hei, if_neg hine, if_neg hna]
      rw [ih (i + 1) (by omega) (by omega)]
      have e2 : List.range' i (t - i + 1) = i :: List.range' (i + 1) (t - (i + 1) + 1) := by
        rw [h1, List.range'_succ]
      have e3 : List.range' i (t - i) = i :: List.range' (i + 1) (t - (i + 1)) := by
        rw [hrange, List.range'_succ]
      rw [e2, e3]
      simp
    · have hieq : t = i := by omega
      subst hieq
      have h0 : t - t = 0 := by omega
      rcases hstop with hs | hs
      · simp only [retryAux, hreq, if_pos hs, h0, List.range'_one]
        simp
      · by_cases hlast : t = attempts - 1
        · simp only [retryAux, hreq, if_pos hlast, h0, List.range'_one]
          simp
        · simp only [retryAux, hreq, if_neg hlast, if_pos hs, h0, List.range'_one]
          simp

/-- Claim C8: under the retry wrapper, an authentication or authorization
failure (HTTP_401 or HTTP_403) at any attempt propagates immediately — the
attempt indices tried stop there and no later attempt happens — while any
run of other failures is re-attempted up to the fixed attempt ceiling with
exponential backoff delays retryDelay * 2 ^ attempt, after which the last
error is surfaced. -/
theorem c8_retry_policy {α : Type} (req : Nat → Except String α) (delay attempts : Nat)
    (hA : 1 ≤ attempts) :
    (∀ t e, t < attempts →
      (∀ j, j < t → ∃ ej, req j = .error ej ∧ ¬(ej = "HTTP_401" ∨ ej = "HTTP_403")) →
      req t = .error e → (e = "HTTP_401" ∨ e = "HTTP_403") →
      retryRequest req delay attempts
        = (.error e, List.range (t + 1), (List.range t).map (fun j => delay * 2 ^ j))) ∧
    (∀ e,
      (∀ j, j < attempts - 1 → ∃ ej, req j = .error ej ∧ ¬(ej = "HTTP_401" ∨ ej = "HTTP_403")) →
      req (attempts - 1) = .error e →
      retryRequest req delay attempts
        = (.error e, List.range attempts, (List.range (attempts - 1)).map (fun j => delay * 2 ^ j))) := by
  constructor
  · intro t e ht hmid hreq hauth
    unfold retryRequest
    rw [retryAux_reaches req delay attempts t e ht hmid hreq (Or.inr hauth) attempts 0 (by omega) (by omega)]
    rw [List.range_eq_range']
    rw [List.range_eq_range']
    simp
  · intro e hmid hreq
    unfold retryRequest
    have ht : attempts - 1 < attempts := by omega
    rw [retryAux_reaches req delay attempts (attempts - 1) e ht hmid hreq (Or.inl rfl) attempts 0 (by omega) (by omega)]
    rw [List.range_eq_range']
    rw [List.range_eq_range']
    have : attempts - 1 + 1 = attempts := by omega
    simp [this]

/-- Witness for claim C8: an immediate HTTP_401 is tried once with no
backoff, and a run of network errors is retried to the ceiling with the
exponential delays. -/
theorem c8_retry_policy_witness :
    (1 ≤ 3 ∧
      retryRequest (fun _ => (.error "HTTP_401" : Except String Nat)) 1000 3
        = (.error "HTTP_401", List.range (0 + 1), (List.range 0).map (fun j => 1000 * 2 ^ j))) ∧
    retryRequest (fun _ => (.error "NETWORK_ERROR" : Except String Nat)) 1000 2
      = (.error "NETWORK_ERROR", List.range 2, (List.range (2 - 1)).map (fun j => 1000 * 2 ^ j)) :=
  ⟨⟨by omega,
      (c8_retry_policy (fun _ => (.error "HTTP_401" : Except String Nat)) 1000 3 (by omega)).1
        0 "HTTP_401" (by omega) (fun j hj => absurd hj (by omega)) rfl (Or.inl rfl)⟩,
    (c8_retry_policy (fun _ => (.error "NETWORK_ERROR" : Except String Nat)) 1000 2 (by omega)).2
      "NETWORK_ERROR" (fun j hj => ⟨"NETWORK_ERROR", rfl, by simp⟩) rfl⟩

/- ### Claim C9: token registry key consistency -/

theorem str_append_ne_empty (a b : String) (hb : b ≠ "") : a ++ b ≠ "" := by
  intro h
  apply hb
  have hd := congrArg String.data h
  rw [String.data_append] at hd
  have h2 : b.data = [] := (List.append_eq_nil.mp hd).2
  exact String.ext (by rw [h2])

theorem upsertToken_forall (P : String × TokenEntry → Prop) :
    ∀ (acc : List (String × TokenEntry)) (k : String) (v : TokenEntry),
      (∀ q ∈ acc, P q) → P (k, v) → ∀ q ∈ upsertToken acc k v, P q := by
  intro acc
  induction acc with
  | nil =>
    intro k v _ hkv q hq
    simp only [upsertToken, List.mem_singleton] at hq
    rw [hq]; exact hkv
  | cons h0 t ih =>
    intro k v hacc hkv q hq
    rcases h0 with ⟨k0, v0⟩
    simp only [upsertToken] at hq
    by_cases hk : k0 = k
    · simp only [if_pos hk, List.mem_cons] at hq
      rcases hq with hq | hq
      · rw [hq]; exact hkv
      · exact hacc q (List.mem_cons_of_mem _ hq)
    · simp only [if_neg hk, List.mem_cons] at hq
      rcases hq with hq | hq
      · rw [hq]; exact hacc (k0, v0) (by simp)
      · exact ih k v (fun p hp => hacc p (List.mem_cons_of_mem _ hp)) hkv q hq

theorem tokensBrandFold_forall (P : String × TokenEntry → Prop) (b : String) :
    ∀ (icons : List RemoteIcon) (acc : List (String × TokenEntry)),
      (∀ q ∈ acc, P q) →
      (∀ icon ∈ icons,
        P (b ++ "-" ++ icon.name,
           ⟨b ++ "/" ++ icon.name ++ ".svg", "asset",
            (if icon.description ≠ "" then icon.description else icon.originalName ++ " icon"),
            b, icon.name, icon.originalName⟩)) →
      ∀ q ∈ icons.foldl
          (fun acc icon =>
            upsertToken acc (b ++ "-" ++ icon.name)
              ⟨b ++ "/" ++ icon.name ++ ".svg", "asset",
               (if icon.description ≠ "" then icon.description else icon.originalName ++ " icon"),
               b, icon.name, icon.originalName⟩)
          acc, P q := by
  intro icons
  induction icons with
  | nil => intro acc hacc _ q hq; exact hacc q hq
  | cons icon t ih =>
    intro acc hacc hmk q hq
    simp only [List.foldl_cons] at hq
    refine ih _ ?_ (fun ic hic => hmk ic (List.mem_cons_of_mem _ hic)) q hq
    exact upsertToken_forall P acc _ _ hacc (hmk icon (by simp))

theorem figmaIconsToTokens_forall (P : String × TokenEntry → Prop) :
    ∀ (l : List (String × List RemoteIcon)),
      (∀ b icons icon, (b, icons) ∈ l → icon ∈ icons →
        P (b ++ "-" ++ icon.name,
           ⟨b ++ "/" ++ icon.name ++ ".svg", "asset",
            (if icon.description ≠ "" then icon.description else icon.originalName ++ " icon"),
            b, icon.name, icon.originalName⟩)) →
      ∀ q ∈ figmaIconsToTokens l, P q := by
  have main : ∀ (l : List (String × List RemoteIcon)) (acc : List (String × TokenEntry)),
      (∀ q ∈ acc, P q) →
      (∀ b icons icon, (b, icons) ∈ l → icon ∈ icons →
        P (b ++ "-" ++ icon.name,
           ⟨b ++ "/" ++ icon.name ++ ".svg", "asset",
            (if icon.description ≠ "" then icon.description else icon.originalName ++ " icon"),
            b, icon.name, icon.originalName⟩)) →
      ∀ q ∈ l.foldl
          (fun acc bi =>
            bi.2.foldl
              (fun acc icon =>
                upsertToken acc (bi.1 ++ "-" ++ icon.name)
                  ⟨bi.1 ++ "/" ++ icon.name ++ ".svg", "asset",
                   (if icon.description ≠ "" then icon.description
                    else icon.originalName ++ " icon"),
                   bi.1, icon.name, icon.originalName⟩)
              acc)
          acc, P q := by
    intro l
    induction l with
    | nil => intro acc hacc _ q hq; exact hacc q hq
    | cons bi t ih =>
      intro acc hacc hmk q hq
      simp only [List.foldl_cons] at hq
      refine ih _ ?_ (fun b icons icon hbin hiin =>
        hmk b icons icon (List.mem_cons_of_mem _ hbin) hiin) q hq
      exact tokensBrandFold_forall P bi.1 bi.2 acc hacc
        (fun icon hic => hmk bi.1 bi.2 icon (by simp) hic)
  intro l hmk q hq
  exact main l [] (by simp) hmk q hq

theorem validateTokenEntries_ok :
    ∀ l : List (String × TokenEntry),
      (∀ q ∈ l, q.1 = q.2.brand ++ "-" ++ q.2.name ∧ q.2.value ≠ "" ∧
        q.2.type ≠ "" ∧ q.2.brand ≠ "" ∧ q.2.name ≠ "") →
      validateTokenEntries l = .ok [] := by
  intro l
  induction l with
  | nil => intro _; rfl
  | cons p rest ih =>
    intro h
    rcases p with ⟨k, t⟩
    obtain ⟨hkey, hv, ht, hb, hn⟩ := h (k, t) (by simp)
    have hck : createTokenKey t.brand t.name = .ok (t.brand ++ "-" ++ t.name) := by
      unfold createTokenKey
      rw [if_neg (by push_neg; exact ⟨hb, hn⟩)]
    have hke : ¬(k ≠ t.brand ++ "-" ++ t.name) := by
      push_neg
      exact hkey
    have hrest := ih (fun q hq => h q (List.mem_cons_of_mem _ hq))
    simp only [validateTokenEntries, hck, hrest, if_neg hv, if_neg ht, if_neg hb, if_neg hn]
    rw [if_neg hke]
    rfl

/-- Claim C9: rebuilding the Token Registry from any remote icon set whose
brand and icon names are non-empty yields entries whose stored key always
equals the canonical key brand-name derived from the entry fields, and the
registry integrity check reports no issue at all (in particular no
key-mismatch error). -/
theorem c9_registry_key_consistency (figmaIcons : List (String × List RemoteIcon))
    (hb : ∀ p ∈ figmaIcons, p.1 ≠ "")
    (hn : ∀ p ∈ figmaIcons, ∀ icon ∈ p.2, icon.name ≠ "") :
    (∀ q ∈ figmaIconsToTokens figmaIcons, q.1 = q.2.brand ++ "-" ++ q.2.name) ∧
      validateTokenEntries (figmaIconsToTokens figmaIcons) = .ok [] := by
  have hall : ∀ q ∈ figmaIconsToTokens figmaIcons,
      q.1 = q.2.brand ++ "-" ++ q.2.name ∧ q.2.value ≠ "" ∧
        q.2.type ≠ "" ∧ q.2.brand ≠ "" ∧ q.2.name ≠ "" := by
    apply figmaIconsToTokens_forall
    intro b icons icon hbin hiin
    exact ⟨rfl, str_append_ne_empty _ ".svg" (by decide),
      (by decide : ("asset" : String) ≠ ""),
      hb (b, icons) hbin, hn (b, icons) hbin icon hiin⟩
  exact ⟨fun q hq => (hall q hq).1, validateTokenEntries_ok _ hall⟩

/-- Witness for claim C9 on a one-brand one-icon remote listing. -/
theorem c9_registry_key_consistency_witness :
    (∀ p ∈ [("global", [(⟨"1:1", "star", "Star", ""⟩ : RemoteIcon)])], p.1 ≠ "") ∧
      (∀ p ∈ [("global", [(⟨"1:1", "star", "Star", ""⟩ : RemoteIcon)])],
        ∀ icon ∈ p.2, icon.name ≠ "") ∧
      ((∀ q ∈ figmaIconsToTokens [("global", [⟨"1:1", "star", "Star", ""⟩])],
          q.1 = q.2.brand ++ "-" ++ q.2.name) ∧
        validateTokenEntries
            (figmaIconsToTokens [("global", [⟨"1:1", "star", "Star", ""⟩])]) = .ok []) :=
  ⟨by decide, by decide,
    c9_registry_key_consistency [("global", [⟨"1:1", "star", "Star", ""⟩])]
      (by decide) (by decide)⟩

/- ### Store lemmas for the add / list / remove claims -/

theorem findDirIn_setDirIn :
    ∀ (bs : List BrandDir) (d : String) (fs files : List FsFile),
      findDirIn bs d = some files → findDirIn (setDirIn bs d fs) d = some fs := by
  intro bs
  induction bs with
  | nil => intro d fs files h; simp [findDirIn] at h
  | cons bd t ih =>
    intro d fs files h
    by_cases hbd : bd.name = d
    · simp [setDirIn, findDirIn, hbd]
    · simp only [findDirIn, if_neg hbd] at h
      simp only [setDirIn, if_neg hbd, findDirIn]
      exact ih d fs files h

theorem upsertFile_mem : ∀ (files : List FsFile) (f : FsFile), f ∈ upsertFile files f := by
  intro files
  induction files with
  | nil => intro f; simp [upsertFile]
  | cons g t ih =>
    intro f
    by_cases hg : g.filename = f.filename
    · simp [upsertFile, hg]
    · simp only [upsertFile, if_neg hg]
      exact List.mem_cons_of_mem g (ih f)

theorem fileExists_of_mem {files : List FsFile} {g : FsFile} (hm : g ∈ files)
    {fn : String} (hfn : g.filename = fn) : fileExists files fn = true := by
  unfold fileExists
  rw [List.any_eq_true]
  exact ⟨g, hm, by simp [hfn]⟩

theorem fileExists_false_iff {files : List FsFile} {fn : String} :
    fileExists files fn = false ↔ ∀ g ∈ files, g.filename ≠ fn := by
  unfold fileExists
  rw [List.any_eq_false]
  simp

theorem fileExists_true_iff {files : List FsFile} {fn : String} :
    fileExists files fn = true ↔ ∃ g ∈ files, g.filename = fn := by
  unfold fileExists
  rw [List.any_eq_true]
  simp

theorem upsertFile_of_not_exists :
    ∀ (files : List FsFile) (f : FsFile), fileExists files f.filename = false →
      upsertFile files f = files ++ [f] := by
  intro files
  induction files with
  | nil => intro f _; rfl
  | cons g t ih =>
    intro f h
    have hall := fileExists_false_iff.mp h
    have hg : g.filename ≠ f.filename := hall g (by simp)
    simp only [upsertFile, if_neg hg, List.cons_append, List.cons.injEq, true_and]
    exact ih f (fileExists_false_iff.mpr (fun q hq => hall q (List.mem_cons_of_mem _ hq)))

theorem eraseFile_append_of_not_exists :
    ∀ (files : List FsFile) (fn : String) (f : FsFile),
      fileExists files fn = false → f.filename = fn →
      eraseFile (files ++ [f]) fn = files := by
  intro files
  induction files with
  | nil => intro fn f _ hf; simp [eraseFile, hf]
  | cons g t ih =>
    intro fn f h hf
    have hall := fileExists_false_iff.mp h
    have hg : g.filename ≠ fn := hall g (by simp)
    simp only [List.cons_append, eraseFile, if_neg hg, List.cons.injEq, true_and]
    exact ih fn f (fileExists_false_iff.mpr (fun q hq => hall q (List.mem_cons_of_mem _ hq))) hf

theorem insertIcon_mem_self : ∀ (l : List IconEntry) (x : IconEntry), x ∈ insertIcon x l := by
  intro l
  induction l with
  | nil => intro x; simp [insertIcon]
  | cons y ys ih =>
    intro x
    by_cases hle : strLeB x.name.data y.name.data
    · simp [insertIcon, hle]
    · simp only [insertIcon, if_neg hle]
      exact List.mem_cons_of_mem y (ih x)

theorem insertIcon_mem_of : ∀ (l : List IconEntry) (x y : IconEntry), y ∈ l → y ∈ insertIcon x l := by
  intro l
  induction l with
  | nil => intro x y h; simp at h
  | cons z zs ih =>
    intro x y h
    by_cases hle : strLeB x.name.data z.name.data
    · simp only [insertIcon, if_pos hle]
      exact List.mem_cons_of_mem x h
    · simp only [insertIcon, if_neg hle]
      rcases List.mem_cons.mp h with h | h
      · rw [h]; simp
      · exact List.mem_cons_of_mem z (ih x y h)

theorem mem_sortIcons : ∀ (l : List IconEntry) (x : IconEntry), x ∈ l → x ∈ sortIcons l := by
  intro l
  induction l with
  | nil => intro x h; simp at h
  | cons y ys ih =>
    intro x h
    rcases List.mem_cons.mp h with h | h
    · rw [h]
      exact insertIcon_mem_self (sortIcons ys) y
    · exact insertIcon_mem_of (sortIcons ys) y x (ih x h)

theorem extTake_append (xs ys : List Char) (h : ∀ c ∈ xs, c ≠ '.') :
    extTake (xs ++ '.' :: ys) = xs := by
  induction xs with
  | nil => simp [extTake]
  | cons c t ih =>
    have hc : c ≠ '.' := h c (by simp)
    simp only [List.cons_append, extTake, if_neg hc, List.cons.injEq, true_and]
    exact ih (fun q hq => h q (List.mem_cons_of_mem _ hq))

theorem extRest_append (xs ys : List Char) (h : ∀ c ∈ xs, c ≠ '.') :
    extRest (xs ++ '.' :: ys) = some ys := by
  induction xs with
  | nil => simp [extRest]
  | cons c t ih =>
    have hc : c ≠ '.' := h c (by simp)
    simp only [List.cons_append, extRest, if_neg hc]
    exact ih (fun q hq => h q (List.mem_cons_of_mem _ hq))

theorem splitExtChars_append (base e : List Char) (hb : base ≠ [])
    (hed : ∀ c ∈ e, c ≠ '.') :
    splitExtChars (base ++ '.' :: e) = (base, '.' :: e) := by
  have hrev : (base ++ '.' :: e).reverse = e.reverse ++ '.' :: base.reverse := by
    rw [List.reverse_append, List.reverse_cons, List.append_assoc]
    rfl
  have hedr : ∀ c ∈ e.reverse, c ≠ '.' := fun c hc => hed c (List.mem_reverse.mp hc)
  unfold splitExtChars
  rw [hrev, extRest_append _ _ hedr, extTake_append _ _ hedr]
  have hbr : ¬(base.reverse = []) := by
    intro hx
    exact hb (by simpa using congrArg List.reverse hx)
  simp [hbr]

theorem stripSuffix_append (base suf : List Char) (hb : base ≠ []) :
    stripSuffix (base ++ suf) suf = base := by
  unfold stripSuffix
  have hlen : (base ++ suf).length - suf.length = base.length := by
    rw [List.length_append]; omega
  have hcond : suf.length < (base ++ suf).length ∧
      (base ++ suf).drop ((base ++ suf).length - suf.length) = suf := by
    constructor
    · rw [List.length_append]
      have : 0 < base.length := List.length_pos.mpr hb
      omega
    · rw [hlen, List.drop_left]
  rw [if_pos hcond, hlen, List.take_left]

theorem okChar_ne_dot {c : Char} (h : okChar c = true) : c ≠ '.' := by
  intro hc
  rw [hc] at h
  exact absurd h (by decide)

theorem str_data_ne_nil {s : String} (h : s ≠ "") : s.data ≠ [] := by
  intro hd
  exact h (String.ext (by rw [hd]))

/-- The icon record computed for a file named base.ext when the extension is
dot-free, already lowercase, and supported. -/
theorem iconOfFile_mk (fn si c : String) (ext : List Char)
    (hne : si.data ≠ [])
    (hedot : ∀ ch ∈ ext, ch ≠ '.')
    (hlower : ext.map lowerChar = ext)
    (hsupp : (⟨'.' :: ext⟩ : String) ∈ supportedFormats)
    (hfn : fn.data = si.data ++ '.' :: ext) :
    iconOfFile ⟨fn, c⟩ = some ⟨si, fn, ⟨ext⟩⟩ := by
  unfold iconOfFile
  simp only [hfn, splitExtChars_append si.data ext hne hedot]
  have hmap : ('.' :: ext).map lowerChar = '.' :: ext := by
    rw [List.map_cons, hlower]
    rfl
  rw [hmap, if_pos hsupp]
  have hstrip : stripSuffix (si.data ++ '.' :: ext) ('.' :: ext) = si.data :=
    stripSuffix_append si.data ('.' :: ext) hne
  rw [hstrip]
  simp [string_mk_data]

theorem findDir_setDir {st : Store} {d : String} {fs files : List FsFile}
    (h : findDir st d = some files) : findDir (setDir st d fs) d = some fs :=
  findDirIn_setDirIn st.brands d fs files h

/- ### Claim C4: duplicate addIcon is rejected without overwriting -/

/-- Claim C4: after a successful addIcon the store contains the file for the
sanitized icon name with the added content in the sanitized brand directory,
and a second addIcon with the same name and format fails with ICON_EXISTS —
the existence check fires before any validation or write, so the error
outcome carries no store change: the existing content stays and no new file
is written. -/
theorem c4_duplicate_add_rejected (st st1 : Store) (b i c c2 fmt : String) (r : AddedIcon)
    (h : addIconToBrand st b i c fmt = .ok (st1, r)) :
    (∃ files, findDir st1 r.brand = some files ∧ (⟨r.name ++ "." ++ fmt, c⟩ : FsFile) ∈ files) ∧
      addIconToBrand st1 b i c2 fmt = .error .iconExists := by
  simp only [addIconToBrand] at h
  split at h
  · exact absurd h (by simp)
  rename_i sb hsb
  split at h
  · exact absurd h (by simp)
  rename_i si hsi
  split at h
  · exact absurd h (by simp)
  rename_i dir hgd
  split at h
  · exact absurd h (by simp)
  rename_i st1p hcre
  split at h
  · exact absurd h (by simp)
  rename_i hpath
  split at h
  · exact absurd h (by simp)
  rename_i hval
  split at h
  · exact absurd h (by simp)
  rename_i st2 hwf
  have hsbne : sb ≠ "" := by
    intro he
    rw [he] at hgd
    simp [getBrandDirectory, sanitizeBrandName] at hgd
  have hgd2 : getBrandDirectory sb = .ok sb := by
    unfold getBrandDirectory
    exact sanitizeBrandName_idem hsb hsbne
  have hdir : dir = sb := by
    rw [hgd2] at hgd
    exact (Except.ok.inj hgd).symm
  subst hdir
  unfold writeFile at hwf
  split at hwf
  · exact absurd hwf (by simp)
  rename_i files0 hfd0
  have hst2 : setDir st1p dir (upsertFile files0 ⟨si ++ "." ++ fmt, c⟩) = st2 :=
    Except.ok.inj hwf
  have hpair := Except.ok.inj h
  have hst1 : st2 = st1 := congrArg Prod.fst hpair
  have hr : ({ brand := dir, name := si, filename := si ++ "." ++ fmt, format := fmt } : AddedIcon) = r :=
    congrArg Prod.snd hpair
  subst hst1
  subst hr
  subst hst2
  have hfd1 : findDir (setDir st1p dir (upsertFile files0 ⟨si ++ "." ++ fmt, c⟩)) dir
      = some (upsertFile files0 ⟨si ++ "." ++ fmt, c⟩) := findDir_setDir hfd0
  have hmem : (⟨si ++ "." ++ fmt, c⟩ : FsFile) ∈ upsertFile files0 ⟨si ++ "." ++ fmt, c⟩ :=
    upsertFile_mem files0 _
  have hpe1 : pathExists (setDir st1p dir (upsertFile files0 ⟨si ++ "." ++ fmt, c⟩)) dir
      (si ++ "." ++ fmt) = true := by
    unfold pathExists
    rw [hfd1]
    exact fileExists_of_mem hmem rfl
  constructor
  · exact ⟨upsertFile files0 ⟨si ++ "." ++ fmt, c⟩, hfd1, hmem⟩
  · simp [addIconToBrand, hsb, hsi, hgd2, hfd1, hpe1]

/-- Witness for claim C4 on a fresh store. -/
theorem c4_duplicate_add_rejected_witness :
    addIconToBrand ⟨[]⟩ "global" "Star" "<svg>1</svg>" "svg"
        = .ok (⟨[⟨"global", [⟨"star.svg", "<svg>1</svg>"⟩]⟩]⟩,
               ⟨"global", "star", "star.svg", "svg"⟩) ∧
      ((∃ files,
          findDir ⟨[⟨"global", [⟨"star.svg", "<svg>1</svg>"⟩]⟩]⟩ "global" = some files ∧
            (⟨"star" ++ "." ++ "svg", "<svg>1</svg>"⟩ : FsFile) ∈ files) ∧
        addIconToBrand ⟨[⟨"global", [⟨"star.svg", "<svg>1</svg>"⟩]⟩]⟩ "global" "Star" "<svg>2</svg>" "svg"
          = .error .iconExists) :=
  ⟨rfl,
    c4_duplicate_add_rejected ⟨[]⟩ ⟨[⟨"global", [⟨"star.svg", "<svg>1</svg>"⟩]⟩]⟩
      "global" "Star" "<svg>1</svg>" "<svg>2</svg>" "svg"
      ⟨"global", "star", "star.svg", "svg"⟩ rfl⟩

/- ### Claim C10: duplicate detection is per (name, format) -/

/-- Claim C10: the existence check of addIcon tests only name.format, so
when a brand holds only name.png, adding name with format svg succeeds
(appending the new file) rather than failing with ICON_EXISTS; the listing
then contains two entries with the same name in formats svg and png; and
removeIcon deletes only one file — the svg one, because .svg comes first in
the fixed search order .svg, .png, .jpg, .jpeg — leaving the png in place. -/
theorem c10_duplicate_detection_per_name_format (st : Store) (b i c sb si : String)
    (files : List FsFile)
    (hsb : sanitizeBrandName b = .ok sb) (hsi : sanitizeIconName i = .ok si)
    (hbne : sb ≠ "") (hine : si ≠ "")
    (hdir : findDir st sb = some files)
    (hpng : fileExists files (si ++ ".png") = true)
    (hsvg : fileExists files (si ++ "." ++ "svg") = false)
    (hc : hasSvgTag c = true) :
    addIconToBrand st b i c "svg"
        = .ok (setDir st sb (files ++ [⟨si ++ "." ++ "svg", c⟩]),
               ⟨sb, si, si ++ "." ++ "svg", "svg"⟩) ∧
      (∃ icons, getIconsForBrand (setDir st sb (files ++ [⟨si ++ "." ++ "svg", c⟩])) b = .ok icons ∧
        (⟨si, si ++ "." ++ "svg", "svg"⟩ : IconEntry) ∈ icons ∧
        (⟨si, si ++ ".png", "png"⟩ : IconEntry) ∈ icons) ∧
      removeIconFromBrand (setDir st sb (files ++ [⟨si ++ "." ++ "svg", c⟩])) b i
        = .ok (setDir (setDir st sb (files ++ [⟨si ++ "." ++ "svg", c⟩])) sb files,
               ⟨sb, si, "svg"⟩) ∧
      findDir (setDir (setDir st sb (files ++ [⟨si ++ "." ++ "svg", c⟩])) sb files) sb = some files ∧
      fileExists files (si ++ ".png") = true ∧
      fileExists files (si ++ "." ++ "svg") = false := by
  have hid := sanitizeBrandName_idem hsb hbne
  have hdotext : si ++ "." ++ "svg" = si ++ ".svg" := by
    rw [String.append_assoc]
    exact congrArg (fun t => si ++ t) (by decide)
  have hsvg2 : fileExists files (si ++ ".svg") = false := by
    rw [← hdotext]
    exact hsvg
  have hpe : pathExists st sb (si ++ "." ++ "svg") = false := by
    unfold pathExists
    rw [hdir]
    exact hsvg
  have hups : upsertFile files ⟨si ++ "." ++ "svg", c⟩ = files ++ [⟨si ++ "." ++ "svg", c⟩] :=
    upsertFile_of_not_exists files ⟨si ++ "." ++ "svg", c⟩ hsvg
  have hadd : addIconToBrand st b i c "svg"
      = .ok (setDir st sb (files ++ [⟨si ++ "." ++ "svg", c⟩]),
             ⟨sb, si, si ++ "." ++ "svg", "svg"⟩) := by
    simp only [addIconToBrand, hsb, hsi, getBrandDirectory, hid, hdir, Option.isSome_some,
      if_true, hpe, Bool.false_eq_true, if_false, writeFile, hups]
    simp [hc]
  have hfd2 : findDir (setDir st sb (files ++ [⟨si ++ "." ++ "svg", c⟩])) sb
      = some (files ++ [⟨si ++ "." ++ "svg", c⟩]) := findDir_setDir hdir
  have hsne : si.data ≠ [] := str_data_ne_nil hine
  have hsvgfile : iconOfFile ⟨si ++ "." ++ "svg", c⟩
      = some ⟨si, si ++ "." ++ "svg", ⟨"svg".data⟩⟩ := by
    apply iconOfFile_mk (si ++ "." ++ "svg") si c "svg".data hsne (by decide) (by decide) (by decide)
    rw [hdotext, String.data_append]
  refine ⟨hadd, ?_, ?_, findDir_setDir hfd2, hpng, hsvg⟩
  · refine ⟨sortIcons ((files ++ [(⟨si ++ "." ++ "svg", c⟩ : FsFile)]).filterMap iconOfFile),
      ?_, ?_, ?_⟩
    · simp only [getIconsForBrand, hsb, getBrandDirectory, hid, hfd2]
    · apply mem_sortIcons
      apply List.mem_filterMap.mpr
      exact ⟨⟨si ++ "." ++ "svg", c⟩, List.mem_append_right _ (by simp), hsvgfile⟩
    · obtain ⟨g, hgmem, hgfn⟩ := fileExists_true_iff.mp hpng
      rcases g with ⟨gfn, gc⟩
      simp only at hgfn
      subst hgfn
      have hpngfile : iconOfFile ⟨si ++ ".png", gc⟩
          = some ⟨si, si ++ ".png", ⟨"png".data⟩⟩ := by
        apply iconOfFile_mk (si ++ ".png") si gc "png".data hsne (by decide) (by decide) (by decide)
        rw [String.data_append]
      apply mem_sortIcons
      apply List.mem_filterMap.mpr
      exact ⟨⟨si ++ ".png", gc⟩, List.mem_append_left _ hgmem, hpngfile⟩
  · have hex : fileExists (files ++ [⟨si ++ "." ++ "svg", c⟩]) (si ++ ".svg") = true := by
      apply fileExists_of_mem
        (List.mem_append_right _ (by simp : (⟨si ++ "." ++ "svg", c⟩ : FsFile) ∈ [⟨si ++ "." ++ "svg", c⟩]))
      exact hdotext
    have herase : eraseFile (files ++ [⟨si ++ "." ++ "svg", c⟩]) (si ++ ".svg") = files := by
      apply eraseFile_append_of_not_exists files (si ++ ".svg") ⟨si ++ "." ++ "svg", c⟩ hsvg2
      exact hdotext
    simp only [removeIconFromBrand, hsb, hsi, getBrandDirectory, hid, hfd2, supportedFormats,
      findFormatExt, hex, if_true, herase]
    rfl

/-- Witness for claim C10 on a brand holding only star.png. -/
theorem c10_duplicate_detection_per_name_format_witness :
    (sanitizeBrandName "global" = .ok "global" ∧
      sanitizeIconName "star" = .ok "star" ∧
      ("global" : String) ≠ "" ∧ ("star" : String) ≠ "" ∧
      findDir ⟨[⟨"global", [⟨"star.png", "P"⟩]⟩]⟩ "global" = some [⟨"star.png", "P"⟩] ∧
      fileExists [⟨"star.png", "P"⟩] ("star" ++ ".png") = true ∧
      fileExists [⟨"star.png", "P"⟩] ("star" ++ "." ++ "svg") = false ∧
      hasSvgTag "<svg/>" = true) ∧
    (addIconToBrand ⟨[⟨"global", [⟨"star.png", "P"⟩]⟩]⟩ "global" "star" "<svg/>" "svg"
        = .ok (setDir ⟨[⟨"global", [⟨"star.png", "P"⟩]⟩]⟩ "global"
                 ([⟨"star.png", "P"⟩] ++ [⟨"star" ++ "." ++ "svg", "<svg/>"⟩]),
               ⟨"global", "star", "star" ++ "." ++ "svg", "svg"⟩) ∧
      (∃ icons,
        getIconsForBrand
            (setDir ⟨[⟨"global", [⟨"star.png", "P"⟩]⟩]⟩ "global"
              ([⟨"star.png", "P"⟩] ++ [⟨"star" ++ "." ++ "svg", "<svg/>"⟩])) "global" = .ok icons ∧
          (⟨"star", "star" ++ "." ++ "svg", "svg"⟩ : IconEntry) ∈ icons ∧
          (⟨"star", "star" ++ ".png", "png"⟩ : IconEntry) ∈ icons) ∧
      removeIconFromBrand
          (setDir ⟨[⟨"global", [⟨"star.png", "P"⟩]⟩]⟩ "global"
            ([⟨"star.png", "P"⟩] ++ [⟨"star" ++ "." ++ "svg", "<svg/>"⟩])) "global" "star"
        = .ok (setDir
                 (setDir ⟨[⟨"global", [⟨"star.png", "P"⟩]⟩]⟩ "global"
                   ([⟨"star.png", "P"⟩] ++ [⟨"star" ++ "." ++ "svg", "<svg/>"⟩]))
                 "global" [⟨"star.png", "P"⟩],
               ⟨"global", "star", "svg"⟩) ∧
      findDir (setDir
                (setDir ⟨[⟨"global", [⟨"star.png", "P"⟩]⟩]⟩ "global"
                  ([⟨"star.png", "P"⟩] ++ [⟨"star" ++ "." ++ "svg", "<svg/>"⟩]))
                "global" [⟨"star.png", "P"⟩]) "global" = some [⟨"star.png", "P"⟩] ∧
      fileExists [⟨"star.png", "P"⟩] ("star" ++ ".png") = true ∧
      fileExists [⟨"star.png", "P"⟩] ("star" ++ "." ++ "svg") = false) :=
  ⟨⟨rfl, rfl, by decide, by decide, rfl, rfl, rfl, rfl⟩,
    c10_duplicate_detection_per_name_format ⟨[⟨"global", [⟨"star.png", "P"⟩]⟩]⟩
      "global" "star" "<svg/>" "global" "star" [⟨"star.png", "P"⟩]
      rfl rfl (by decide) (by decide) rfl rfl rfl rfl⟩
